import Mathlib

/-!
Verification of the SOJ (Secure Online Judge) core against its source.

The development shallowly embeds the Go source:
* Go `map[string]T` values are modelled as association lists (`SMap`),
  with the Go zero-value read semantics (`SMap.getD m k 0` for a
  `map[string]float64` read `m[k]`).
* Go `float64` scores are modelled as rationals `ℚ`; only order and
  field operations on scores appear in the aggregator logic.
* External effects (filesystem, container runtime, JSON decoding) are
  modelled as oracles supplied to the judge pipeline function.
-/

namespace SOJ

/-! ## Association-list model of Go string-keyed maps -/

/-- Model of a Go `map[string]α`: an association list.  Lookup returns the
first binding; `set` replaces the first binding or appends. -/
abbrev SMap (α : Type) : Type := List (String × α)

namespace SMap

/-- Lookup, returning `none` for a missing key (the Go `v, ok := m[k]` form). -/
def get? {α : Type} (m : SMap α) (k : String) : Option α :=
  match m with
  | [] => none
  | (k', v) :: rest => if k' = k then some v else get? rest k

/-- Lookup with a default: the Go one-result read `m[k]`, which yields the
zero value of the element type when the key is absent. -/
def getD {α : Type} (m : SMap α) (k : String) (d : α) : α :=
  (m.get? k).getD d

/-- Assignment `m[k] = v`: replace the first binding of `k`, or append. -/
def set {α : Type} (m : SMap α) (k : String) (v : α) : SMap α :=
  match m with
  | [] => [(k, v)]
  | (k', v') :: rest => if k' = k then (k', v) :: rest else (k', v') :: set rest k v

/-- Sum of all values of a `map[string]float64` (iteration order is
irrelevant for the rational sum). -/
def sumValues (m : SMap ℚ) : ℚ :=
  (m.map fun p => p.2).sum

@[simp]
theorem get?_nil {α : Type} (k : String) : get? ([] : SMap α) k = none := rfl

theorem get?_cons {α : Type} (k' k : String) (v : α) (rest : SMap α) :
    get? ((k', v) :: rest) k = if k' = k then some v else get? rest k := rfl

@[simp]
theorem get?_set_self {α : Type} (m : SMap α) (k : String) (v : α) :
    get? (set m k v) k = some v := by
  induction m with
  | nil => simp [set, get?]
  | cons hd tl ih =>
    obtain ⟨k', v'⟩ := hd
    by_cases hk : k' = k
    · simp [set, get?, hk]
    · simp [set, get?, hk, ih]

@[simp]
theorem get?_set_ne {α : Type} (m : SMap α) (k k₂ : String) (v : α) (hne : k ≠ k₂) :
    get? (set m k v) k₂ = get? m k₂ := by
  induction m with
  | nil => simp [set, get?, hne]
  | cons hd tl ih =>
    obtain ⟨k', v'⟩ := hd
    by_cases hk : k' = k
    · subst hk
      simp [set, get?, hne]
    · simp [set, get?, hk, ih]

theorem getD_set_self {α : Type} (m : SMap α) (k : String) (v d : α) :
    getD (set m k v) k d = v := by
  simp [getD]

theorem getD_set_ne {α : Type} (m : SMap α) (k k₂ : String) (v d : α) (hne : k ≠ k₂) :
    getD (set m k v) k₂ d = getD m k₂ d := by
  simp [getD, get?_set_ne m k k₂ v hne]

/-- Writing back the value already stored at a key leaves the map unchanged. -/
theorem set_get_self {α : Type} (m : SMap α) (k : String) (v : α)
    (h : get? m k = some v) : set m k v = m := by
  induction m with
  | nil => simp [get?] at h
  | cons hd tl ih =>
    obtain ⟨k', v'⟩ := hd
    by_cases hk : k' = k
    · subst hk
      simp [get?] at h
      simp [set, h]
    · rw [get?_cons] at h
      simp [hk] at h
      simp [set, hk, ih h]

end SMap

/-! ## Data model (src/types/types.go) -/

/-- `types.JudgeResult`. -/
structure JudgeResult where
  success : Bool
  score : ℚ
  msg : String
  memory : Nat
  time : Nat
deriving Repr, DecidableEq

/-- `types.WorkflowStepResult`. -/
structure WorkflowStepResult where
  logs : String
  exit_code : Int
deriving Repr, DecidableEq

/-- `types.WorkflowResult`. -/
structure WorkflowResult where
  success : Bool
  logs : String
  exit_code : Int
  steps : List WorkflowStepResult
deriving Repr, DecidableEq

/-- `types.SubmitHash`. -/
structure SubmitHash where
  path : String
  hash : String
deriving Repr, DecidableEq

/-- `types.SubmitCtx`, restricted to its persisted fields (the transient
fields `SubmitDir`, `Workdir`, `RealWorkdir`, `Running`, `Userface` are
either oracle-modelled or irrelevant to the verified properties). -/
structure SubmitCtx where
  id : String
  user : String
  problem : String
  submit_time : Int
  last_update : Int
  status : String
  msg : String
  submits_hashes : List SubmitHash
  workflow_results : List WorkflowResult
  judge_result : JudgeResult
deriving Repr, DecidableEq

/-- `types.Submit`: one declared submit entry of a problem. -/
structure Submit where
  path : String
  is_dir : Bool
deriving Repr, DecidableEq

/-- `types.Mount`. -/
structure Mount where
  type : String
  source : String
  target : String
  read_only : Bool
deriving Repr, DecidableEq

/-- `types.Workflow`.  The source field `Show` is called `showSteps` here
because `show` is a Lean keyword. -/
structure Workflow where
  image : String
  steps : List String
  timeout : Int
  root : Bool
  disable_network : Bool
  showSteps : List Int
  privileged_steps : List Int
  network_host_mode : Bool
  mounts : List Mount
deriving Repr, DecidableEq

/-- `types.Problem`. -/
structure Problem where
  id : String
  weight : ℚ
  submits : List Submit
  workflow : List Workflow
deriving Repr, DecidableEq

/-- `types.User` (persisted fields). -/
structure User where
  id : String
  token : String
  best_scores : SMap ℚ
  best_submits : SMap String
  best_submit_date : SMap Int
  total_score : ℚ
deriving Repr, DecidableEq

/-- `(*User).CalculateTotalScore`: recompute `total_score` as the sum of
`best_scores` values. -/
def User.calculateTotalScore (u : User) : User :=
  { u with total_score := SMap.sumValues u.best_scores }

/-! ## Aggregator operations (src/types/database.go) -/

/-- `(*DatabaseService).CreateUser`: a fresh user record with empty best
maps and zero total score (the token is an input here; the source draws a
random UUID). -/
def createUser (userID token : String) : User :=
  { id := userID
    token := token
    best_scores := []
    best_submits := []
    best_submit_date := []
    total_score := 0 }

/-- `(*DatabaseService).UpdateUser`: the user record as persisted — the
source recomputes `total_score` and saves. -/
def updateUser (u : User) : User :=
  u.calculateTotalScore

/-- `(*DatabaseService).UpdateUserSubmitResult`: the incremental aggregator
update run after a pipeline finishes.  Note the Go comparison
`user.BestScores[submit.Problem] < newScore` reads the map with the
zero-value default `0` for a missing key. -/
def updateUserSubmitResult (user : User) (submit : SubmitCtx) (problem : Problem) : User :=
  let user :=
    if submit.status = "completed" ∧ submit.judge_result.success = true then
      let newScore := submit.judge_result.score * problem.weight
      if SMap.getD user.best_scores submit.problem 0 < newScore then
        { user with
          best_scores := SMap.set user.best_scores submit.problem newScore
          best_submits := SMap.set user.best_submits submit.problem submit.id
          best_submit_date := SMap.set user.best_submit_date submit.problem submit.submit_time }
      else user
    else user
  updateUser user

/-- The per-user effect of one `DoFullUserScan` loop iteration: apply the
best-score update when the submission is completed and successful and its
problem is loaded.  As in the incremental update, the current best is read
with the Go zero-value default. -/
def scanUpd (problems : SMap Problem) (u : User) (s : SubmitCtx) : User :=
  if s.status = "completed" ∧ s.judge_result.success = true then
    match SMap.get? problems s.problem with
    | some problem =>
      if SMap.getD u.best_scores s.problem 0 < s.judge_result.score * problem.weight then
        { u with
          best_scores := SMap.set u.best_scores s.problem
            (s.judge_result.score * problem.weight)
          best_submits := SMap.set u.best_submits s.problem s.id
          best_submit_date := SMap.set u.best_submit_date s.problem s.submit_time }
      else u
    | none => u
  else u

/-- One iteration of the `DoFullUserScan` submission loop: look the
submitter up in the working user map (`log.Fatal`, modelled as `none`, if
absent), apply `scanUpd` and write the user back into the map. -/
def scanStep (problems : SMap Problem) (userMap : SMap User) (s : SubmitCtx) :
    Option (SMap User) :=
  match SMap.get? userMap s.user with
  | none => none
  | some u => some (SMap.set userMap s.user (scanUpd problems u s))

/-- `(*DatabaseService).DoFullUserScan`: fold every submission through
`scanStep` starting from the persisted users table (keyed by id), then
recompute every user's total score and persist.  `none` models the
`log.Fatal` abort on a submission whose user is missing. -/
def doFullUserScan (problems : SMap Problem) (users : SMap User)
    (submits : List SubmitCtx) : Option (SMap User) :=
  match submits.foldlM (scanStep problems) users with
  | none => none
  | some m => some (m.map fun p => (p.1, p.2.calculateTotalScore))

/-- One iteration of the `RecalculateUserBestScoresWithProblems` loop.
Unlike the incremental update, this loop distinguishes a missing
`best_scores` entry (`!exists || weightedScore > currentBest`). -/
def recalcStep (problems : SMap Problem) (u : User) (submit : SubmitCtx) : User :=
  if submit.judge_result.success = true then
    match SMap.get? problems submit.problem with
    | none => u
    | some problem =>
      let weightedScore := submit.judge_result.score * problem.weight
      match SMap.get? u.best_scores submit.problem with
      | none =>
        { u with
          best_scores := SMap.set u.best_scores submit.problem weightedScore
          best_submits := SMap.set u.best_submits submit.problem submit.id
          best_submit_date := SMap.set u.best_submit_date submit.problem submit.submit_time }
      | some currentBest =>
        if weightedScore > currentBest then
          { u with
            best_scores := SMap.set u.best_scores submit.problem weightedScore
            best_submits := SMap.set u.best_submits submit.problem submit.id
            best_submit_date := SMap.set u.best_submit_date submit.problem submit.submit_time }
        else u
  else u

/-- `(*DatabaseService).RecalculateUserBestScoresWithProblems`: reset the
three best maps, replay the user's completed submissions, recompute the
total and persist via `updateUser`. -/
def recalculateUserBestScoresWithProblems (problems : SMap Problem) (user : User)
    (completedSubmits : List SubmitCtx) : User :=
  let user := { user with
    best_scores := ([] : SMap ℚ)
    best_submits := ([] : SMap String)
    best_submit_date := ([] : SMap Int) }
  let user := completedSubmits.foldl (recalcStep problems) user
  updateUser user.calculateTotalScore

/-- `(*DatabaseService).ModifySubmissionResult`, the mutation applied to the
fetched submission record: overwrite score, derive `success` from
`score > 0`, set the message, force status `completed`. -/
def modifySubmissionResult (submit : SubmitCtx) (score : ℚ) (message : String) : SubmitCtx :=
  { submit with
    judge_result := { submit.judge_result with score := score, success := decide (score > 0) }
    msg := message
    status := "completed" }

/-- The full admin-rescoring operation `ModifySubmissionResult` on a store:
fetch the submission by id (`none` when absent), rewrite it (bumping
`last_update` to `now`, as `UpdateSubmit` does), save it back, and
recalculate the submitter's best maps from that user's completed
submissions. -/
def modifySubmissionResultOp (problems : SMap Problem) (store : List SubmitCtx)
    (user : User) (submitID : String) (score : ℚ) (message : String) (now : Int) :
    Option (List SubmitCtx × User) :=
  match store.find? (fun t => t.id = submitID) with
  | none => none
  | some submit =>
    let submit' := { modifySubmissionResult submit score message with last_update := now }
    let store' := store.map fun t => if t.id = submitID then submit' else t
    let completed := store'.filter fun t => t.user = submit.user ∧ t.status = "completed"
    some (store', recalculateUserBestScoresWithProblems problems user completed)

/-! ## Startup reaper (src/types/database.go, NewDatabaseService) -/

/-- The startup reaper's per-row effect: the SQL
`UPDATE ... SET status = dead WHERE status NOT IN (completed, dead, failed)`. -/
def reaperStep (s : SubmitCtx) : SubmitCtx :=
  if s.status ≠ "completed" ∧ s.status ≠ "dead" ∧ s.status ≠ "failed" then
    { s with status := "dead" }
  else s

/-- The startup reaper applied to the whole submissions table. -/
def reap (table : List SubmitCtx) : List SubmitCtx :=
  table.map reaperStep

/-! ## Userface (src/types/types.go, `Userface.Write`) -/

/-- The `(n, err)` pair a Go `io.Writer.Write` returns. -/
structure WriteOutcome where
  n : Nat
  err : Option String
deriving Repr, DecidableEq

/-- `Userface.Write`.  `hasSink` models `f.Writer != nil`; `sinkN` and
`sinkErr` are the oracle outcome of the live sink's write.  The source
builds `io.MultiWriter(f.Buffer, f.Writer)` (or just the buffer), calls
`_f.Write(p)` discarding its result, and returns `len(p), nil`; `_inner`
reproduces the discarded tee outcome (buffer writes never fail, so the tee
fails only with the sink's error). -/
def Userface.write (hasSink : Bool) (buffer : List Nat) (sinkN : Nat)
    (sinkErr : Option String) (p : List Nat) : List Nat × WriteOutcome :=
  let _inner : WriteOutcome :=
    if hasSink then
      match sinkErr with
      | some e => { n := sinkN, err := some e }
      | none => { n := p.length, err := none }
    else { n := p.length, err := none }
  (buffer ++ p, { n := p.length, err := none })

/-! ## Judge pipeline (src/judge/problem.go, RunJudge) -/

/-- Model of Go `strconv.Quote` for one character: printable ASCII other
than the double quote and backslash is kept literally; the double quote,
backslash and common control characters are escaped; remaining bytes get a
two-digit hex escape.  The source wraps submit paths with `strconv.Quote`
when building staging failure messages. -/
def goQuoteChar (c : Char) : String :=
  if c = '"' then "\\\""
  else if c = '\\' then "\\\\"
  else if c = '\n' then "\\n"
  else if c = '\t' then "\\t"
  else if c = '\r' then "\\r"
  else if 32 ≤ c.toNat ∧ c.toNat < 127 then String.singleton c
  else
    String.mk ['\\', 'x',
      (if c.toNat % 256 / 16 < 10 then Char.ofNat (48 + c.toNat % 256 / 16)
       else Char.ofNat (87 + c.toNat % 256 / 16)),
      (if c.toNat % 16 < 10 then Char.ofNat (48 + c.toNat % 16)
       else Char.ofNat (87 + c.toNat % 16))]

/-- Model of Go `strconv.Quote`: the input surrounded by double quotes with
each character escaped as `goQuoteChar` does. -/
def goQuote (s : String) : String :=
  "\"" ++ String.join (s.data.map goQuoteChar) ++ "\""

/-- One callback invocation `filepath.WalkDir` performs during directory
staging, as the oracle reports it: a callback error (the wrapped error
aborts the walk), a directory entry (skipped), or a regular file with the
path string the callback computes for it (after the
`filepath.IsAbs`/`filepath.Rel` normalisation of the walked path). -/
inductive WalkEvent where
  | errEvent : WalkEvent
  | dirEntry : WalkEvent
  | fileEntry (relpath : String) : WalkEvent
deriving Repr, DecidableEq

/-- The outcome of one `ExecContainer` call: exit code, captured logs, and
whether a Go error was returned. -/
structure ExecOut where
  ec : Int
  logs : String
  err : Bool
deriving Repr, DecidableEq

/-- Oracle for every external effect `RunJudge` performs: directory
preparation, file copies (keyed by declared submit path, yielding the hex
MD5 digest on success and `none` on an I/O error), directory walks,
container creation (container id per 0-based workflow index), step
execution (per workflow and step index), container logs, and the
result-artifact read and JSON decode. -/
structure JudgeWorld where
  mkdirWorkdirOk : Bool
  mkdirSubmitsOk : Bool
  mkdirWorkOk : Bool
  chownWorkdirOk : Bool
  chownSubmitsOk : Bool
  chownWorkOk : Bool
  copyResult : String → Option String
  walkEvents : String → List WalkEvent
  runImage : Nat → Option String
  exec : Nat → Nat → ExecOut
  getLogs : Nat → Option String
  readResultFile : Option String
  parseResult : String → Option JudgeResult

/-- `(*Evaluator).submitFile`: copy one declared file into the staging
area, appending its `{path, hash}` record to the context on success.  The
`MkdirAll`/`Chown`/`Chmod` calls have their errors ignored by the source;
only `copyFile`'s error propagates. -/
def submitFile (world : JudgeWorld) (hashes : List SubmitHash)
    (submit_path : String) : Option (List SubmitHash) :=
  match world.copyResult submit_path with
  | none => none
  | some h => some (hashes ++ [{ path := submit_path, hash := h }])

/-- Result of a directory walk: the staged hash list so far, with or
without an aborting error. -/
inductive WalkRes where
  | ok (hashes : List SubmitHash) : WalkRes
  | fail (hashes : List SubmitHash) : WalkRes
deriving Repr, DecidableEq

/-- The `filepath.WalkDir` loop of a directory submit entry: every regular
file is staged through `submitFile` at `<declared>/<relpath>`; the first
callback error or copy failure aborts the walk.  Hashes recorded before
the failure stay recorded. -/
def runWalk (world : JudgeWorld) (declared : String) (events : List WalkEvent)
    (hashes : List SubmitHash) : WalkRes :=
  match events with
  | [] => .ok hashes
  | .errEvent :: _ => .fail hashes
  | .dirEntry :: rest => runWalk world declared rest hashes
  | .fileEntry relpath :: rest =>
    match submitFile world hashes (declared ++ "/" ++ relpath) with
    | some hashes' => runWalk world declared rest hashes'
    | none => .fail hashes

/-- Result of the staging loop: the staged hashes, or a failure message
with the hashes staged up to the failure. -/
inductive StageRes where
  | ok (hashes : List SubmitHash) : StageRes
  | fail (msg : String) (hashes : List SubmitHash) : StageRes
deriving Repr, DecidableEq

/-- Stage one declared submit entry; on failure the message is built with
`strconv.Quote` around the declared path, exactly as the source does. -/
def stageEntry (world : JudgeWorld) (hashes : List SubmitHash) (e : Submit) : StageRes :=
  if e.is_dir = false then
    match submitFile world hashes e.path with
    | some hashes' => .ok hashes'
    | none => .fail ("failed to copy submit file " ++ goQuote e.path) hashes
  else
    match runWalk world e.path (world.walkEvents e.path) hashes with
    | .ok hashes' => .ok hashes'
    | .fail hashes' =>
      .fail ("failed to copy submit directory " ++ goQuote e.path) hashes'

/-- The `prep_files` staging loop over the problem's submit entries. -/
def stageSubmits (world : JudgeWorld) (entries : List Submit)
    (hashes : List SubmitHash) : StageRes :=
  match entries with
  | [] => .ok hashes
  | e :: rest =>
    match stageEntry world hashes e with
    | .ok hashes' => stageSubmits world rest hashes'
    | .fail msg hashes' => .fail msg hashes'

/-- The step loop of one workflow.  `widx` and `sidx` are 0-based; the
failure message prints them 1-based, as the source does.  Returns the
failure message if any, the recorded step results, and the trace of
`(workflow, step)` exec calls performed. -/
def runSteps (world : JudgeWorld) (widx : Nat) (steps : List String) (sidx : Nat)
    (acc : List WorkflowStepResult) (trace : List (Nat × Nat)) :
    Option String × List WorkflowStepResult × List (Nat × Nat) :=
  match steps with
  | [] => (none, acc, trace)
  | _step :: rest =>
    if (world.exec widx sidx).ec ≠ 0 ∨ (world.exec widx sidx).err = true then
      (some ("failed to run judge " ++ toString (widx + 1) ++ " step "
        ++ toString (sidx + 1)), acc, trace ++ [(widx, sidx)])
    else
      runSteps world widx rest (sidx + 1)
        (acc ++ [{ logs := (world.exec widx sidx).logs,
                   exit_code := (world.exec widx sidx).ec }])
        (trace ++ [(widx, sidx)])

/-- Result of the workflow loop: the accumulated workflow results, the
containers created so far, and the exec trace — with the failure message
when a workflow aborted the pipeline. -/
inductive WfOut where
  | ok (results : List WorkflowResult) (created : List String)
      (trace : List (Nat × Nat)) : WfOut
  | fail (msg : String) (results : List WorkflowResult) (created : List String)
      (trace : List (Nat × Nat)) : WfOut
deriving Repr, DecidableEq

/-- The workflow loop of `RunJudge`: create the container, run the steps,
collect the container logs, and append the `{success: true, logs, steps}`
record; the first failure aborts the loop. -/
def runWorkflows (world : JudgeWorld) (wfs : List Workflow) (widx : Nat)
    (results : List WorkflowResult) (created : List String)
    (trace : List (Nat × Nat)) : WfOut :=
  match wfs with
  | [] => .ok results created trace
  | wf :: rest =>
    match world.runImage widx with
    | none => .fail "failed to run judge container" results created trace
    | some cid =>
      match runSteps world widx wf.steps 0 [] trace with
      | (some msg, _, trace') => .fail msg results (created ++ [cid]) trace'
      | (none, steps, trace') =>
        match world.getLogs widx with
        | none => .fail "failed to get judge logs" results (created ++ [cid]) trace'
        | some logs =>
          runWorkflows world rest (widx + 1)
            (results ++ [{ success := true, logs := logs, exit_code := 0,
                           steps := steps }])
            (created ++ [cid]) trace'

/-- The observable outcome of one `RunJudge` call: the final persisted
submission fields, the containers created, the containers cleaned by the
deferred `CleanContainer` calls when the function returns, and the exec
trace. -/
structure JudgeOutcome where
  status : String
  msg : String
  submits_hashes : List SubmitHash
  workflow_results : List WorkflowResult
  judge_result : JudgeResult
  created : List String
  cleaned : List String
  execTrace : List (Nat × Nat)
deriving Repr, DecidableEq

/-- The tail of `RunJudge` after staging: run the workflow loop, then read
and decode `<workdir>/work/result.json`.  The deferred `CleanContainer`
calls run in reverse registration order at return, so `cleaned` is the
reverse of `created` on every path past container creation. -/
def runJudgeAfterStage (world : JudgeWorld) (hashes : List SubmitHash)
    (jr0 : JudgeResult) (w : WfOut) : JudgeOutcome :=
  match w with
  | .fail msg results created trace =>
    { status := "failed", msg := msg, submits_hashes := hashes,
      workflow_results := results, judge_result := jr0,
      created := created, cleaned := created.reverse, execTrace := trace }
  | .ok results created trace =>
    match world.readResultFile with
    | none =>
      { status := "failed", msg := "failed to read result file",
        submits_hashes := hashes, workflow_results := results,
        judge_result := jr0, created := created, cleaned := created.reverse,
        execTrace := trace }
    | some bytes =>
      match world.parseResult bytes with
      | none =>
        { status := "failed", msg := "failed to parse result file",
          submits_hashes := hashes, workflow_results := results,
          judge_result := jr0, created := created, cleaned := created.reverse,
          execTrace := trace }
      | some jr =>
        { status := "completed", msg := "judge successfully finished",
          submits_hashes := hashes, workflow_results := results,
          judge_result := jr, created := created, cleaned := created.reverse,
          execTrace := trace }

/-- `(*Evaluator).RunJudge`: prepare the working directories (any of the
six `Mkdir`/`Chown` calls failing aborts with the fixed message), stage the
declared submit files, then run the workflow loop and collect the result
artifact. -/
def runJudge (world : JudgeWorld) (problem : Problem) (ctx0 : SubmitCtx) :
    JudgeOutcome :=
  if world.mkdirWorkdirOk && world.mkdirSubmitsOk && world.mkdirWorkOk
      && world.chownWorkdirOk && world.chownSubmitsOk && world.chownWorkOk then
    match stageSubmits world problem.submits ctx0.submits_hashes with
    | .fail msg hashes =>
      { status := "failed", msg := msg, submits_hashes := hashes,
        workflow_results := ctx0.workflow_results,
        judge_result := ctx0.judge_result,
        created := [], cleaned := [], execTrace := [] }
    | .ok hashes =>
      runJudgeAfterStage world hashes ctx0.judge_result
        (runWorkflows world problem.workflow 0 ctx0.workflow_results [] [])
  else
    { status := "failed", msg := "failed to create submit workdir",
      submits_hashes := ctx0.submits_hashes,
      workflow_results := ctx0.workflow_results,
      judge_result := ctx0.judge_result,
      created := [], cleaned := [], execTrace := [] }

/-- The best score of `uid` for `pid` as the full-rescan working map sees
it: zero-value-defaulted read of the user's `best_scores`. -/
def bestD (m : SMap User) (uid pid : String) : ℚ :=
  match SMap.get? m uid with
  | some u => SMap.getD u.best_scores pid 0
  | none => 0

/-- Saturation of a working user map with respect to one submission: the
submitter is present, and when the submission is completed, successful and
its problem loaded, its weighted score does not exceed the recorded best.
A saturated map is a fixed point of `scanStep` for that submission. -/
def Sat (problems : SMap Problem) (m : SMap User) (s : SubmitCtx) : Prop :=
  (∃ u, SMap.get? m s.user = some u) ∧
  (s.status = "completed" → s.judge_result.success = true →
    ∀ p, SMap.get? problems s.problem = some p →
      s.judge_result.score * p.weight ≤ bestD m s.user s.problem)

/-! ## Helper lemmas about the incremental aggregator update -/

/-- In the install case (completed, successful, strictly better than the
zero-defaulted current best), the three best maps receive the submission. -/
theorem updateUserSubmitResult_install (u : User) (s : SubmitCtx) (p : Problem)
    (hst : s.status = "completed") (hsu : s.judge_result.success = true)
    (hlt : SMap.getD u.best_scores s.problem 0 < s.judge_result.score * p.weight) :
    (updateUserSubmitResult u s p).best_scores
        = SMap.set u.best_scores s.problem (s.judge_result.score * p.weight) ∧
    (updateUserSubmitResult u s p).best_submits
        = SMap.set u.best_submits s.problem s.id ∧
    (updateUserSubmitResult u s p).best_submit_date
        = SMap.set u.best_submit_date s.problem s.submit_time := by
  simp [updateUserSubmitResult, updateUser, User.calculateTotalScore, hst, hsu, hlt]

/-- When the candidate weighted score is not strictly better, the three
best maps are untouched by the incremental update. -/
theorem updateUserSubmitResult_skip (u : User) (s : SubmitCtx) (p : Problem)
    (hno : ¬ SMap.getD u.best_scores s.problem 0 < s.judge_result.score * p.weight) :
    (updateUserSubmitResult u s p).best_scores = u.best_scores ∧
    (updateUserSubmitResult u s p).best_submits = u.best_submits ∧
    (updateUserSubmitResult u s p).best_submit_date = u.best_submit_date := by
  unfold updateUserSubmitResult updateUser User.calculateTotalScore
  by_cases hc : s.status = "completed" ∧ s.judge_result.success = true
  · simp [hc, hno]
  · simp [hc]

/-! ## Helper lemmas for full-rescan idempotence -/

theorem SMap.get?_map_calc (m : SMap User) (k : String) :
    SMap.get? (m.map fun p => (p.1, p.2.calculateTotalScore)) k
      = (SMap.get? m k).map User.calculateTotalScore := by
  induction m with
  | nil => rfl
  | cons hd tl ih =>
    obtain ⟨k', v⟩ := hd
    by_cases h : k' = k <;> simp [SMap.get?, h, ih]

theorem calculateTotalScore_idem (u : User) :
    u.calculateTotalScore.calculateTotalScore = u.calculateTotalScore := rfl

theorem map_calc_idem (m : SMap User) :
    ((m.map fun p => (p.1, p.2.calculateTotalScore)).map
        fun p => (p.1, p.2.calculateTotalScore))
      = m.map fun p => (p.1, p.2.calculateTotalScore) := by
  induction m with
  | nil => rfl
  | cons hd tl ih => simp [ih, calculateTotalScore_idem]

theorem bestD_eq {m : SMap User} {uid : String} {u : User} (pid : String)
    (hu : SMap.get? m uid = some u) :
    bestD m uid pid = SMap.getD u.best_scores pid 0 := by
  simp [bestD, hu]

theorem scanStep_eq {problems : SMap Problem} {m : SMap User} {s : SubmitCtx} {u : User}
    (hu : SMap.get? m s.user = some u) :
    scanStep problems m s = some (SMap.set m s.user (scanUpd problems u s)) := by
  simp [scanStep, hu]

theorem scanStep_inv {problems : SMap Problem} {m m' : SMap User} {s : SubmitCtx}
    (h : scanStep problems m s = some m') :
    ∃ u, SMap.get? m s.user = some u ∧ m' = SMap.set m s.user (scanUpd problems u s) := by
  unfold scanStep at h
  cases hu : SMap.get? m s.user with
  | none => rw [hu] at h; exact absurd h (by simp)
  | some u =>
    rw [hu] at h
    simp only [Option.some.injEq] at h
    exact ⟨u, rfl, h.symm⟩

/-- Equation for `scanUpd` in the install case. -/
theorem scanUpd_eq_install (problems : SMap Problem) (u : User) (s : SubmitCtx)
    (problem : Problem) (hst : s.status = "completed")
    (hsu : s.judge_result.success = true)
    (hp : SMap.get? problems s.problem = some problem)
    (hlt : SMap.getD u.best_scores s.problem 0
      < s.judge_result.score * problem.weight) :
    scanUpd problems u s =
      { u with
        best_scores := SMap.set u.best_scores s.problem
          (s.judge_result.score * problem.weight)
        best_submits := SMap.set u.best_submits s.problem s.id
        best_submit_date := SMap.set u.best_submit_date s.problem s.submit_time } := by
  simp [scanUpd, hst, hsu, hp, hlt]

/-- Equation for `scanUpd` in the not-strictly-better case. -/
theorem scanUpd_eq_skip (problems : SMap Problem) (u : User) (s : SubmitCtx)
    (problem : Problem) (hp : SMap.get? problems s.problem = some problem)
    (hlt : ¬ SMap.getD u.best_scores s.problem 0
      < s.judge_result.score * problem.weight) :
    scanUpd problems u s = u := by
  by_cases hrel : s.status = "completed" ∧ s.judge_result.success = true
  · simp [scanUpd, hrel, hp, hlt]
  · simp [scanUpd, hrel]

/-- Equation for `scanUpd` when the submission's problem is not loaded. -/
theorem scanUpd_eq_noproblem (problems : SMap Problem) (u : User) (s : SubmitCtx)
    (hp : SMap.get? problems s.problem = none) : scanUpd problems u s = u := by
  by_cases hrel : s.status = "completed" ∧ s.judge_result.success = true
  · simp [scanUpd, hrel, hp]
  · simp [scanUpd, hrel]

/-- Equation for `scanUpd` when the submission is not completed-successful. -/
theorem scanUpd_eq_irrelevant (problems : SMap Problem) (u : User) (s : SubmitCtx)
    (hrel : ¬ (s.status = "completed" ∧ s.judge_result.success = true)) :
    scanUpd problems u s = u := by
  simp [scanUpd, hrel]

/-- The per-user rescan update never decreases any recorded best score. -/
theorem scanUpd_mono (problems : SMap Problem) (u : User) (s : SubmitCtx) (pid : String) :
    SMap.getD u.best_scores pid 0 ≤ SMap.getD (scanUpd problems u s).best_scores pid 0 := by
  by_cases hrel : s.status = "completed" ∧ s.judge_result.success = true
  · cases hp : SMap.get? problems s.problem with
    | none => rw [scanUpd_eq_noproblem problems u s hp]
    | some problem =>
      by_cases hlt : SMap.getD u.best_scores s.problem 0
          < s.judge_result.score * problem.weight
      · rw [scanUpd_eq_install problems u s problem hrel.1 hrel.2 hp hlt]
        by_cases hpid : pid = s.problem
        · subst hpid
          dsimp only
          rw [SMap.getD_set_self]
          exact le_of_lt hlt
        · dsimp only
          rw [SMap.getD_set_ne u.best_scores s.problem pid _ 0 (fun h => hpid h.symm)]
      · rw [scanUpd_eq_skip problems u s problem hp hlt]
  · rw [scanUpd_eq_irrelevant problems u s hrel]

/-- After the rescan update for a relevant submission, the recorded best is
at least the submission's weighted score. -/
theorem scanUpd_best_ge (problems : SMap Problem) (u : User) (s : SubmitCtx) (p : Problem)
    (hst : s.status = "completed") (hsu : s.judge_result.success = true)
    (hp : SMap.get? problems s.problem = some p) :
    s.judge_result.score * p.weight
      ≤ SMap.getD (scanUpd problems u s).best_scores s.problem 0 := by
  by_cases hlt : SMap.getD u.best_scores s.problem 0 < s.judge_result.score * p.weight
  · rw [scanUpd_eq_install problems u s p hst hsu hp hlt]
    dsimp only
    rw [SMap.getD_set_self]
  · rw [scanUpd_eq_skip problems u s p hp hlt]
    exact le_of_not_lt hlt

theorem scanStep_mono {problems : SMap Problem} {m m' : SMap User} {s : SubmitCtx}
    (h : scanStep problems m s = some m') (uid pid : String) :
    bestD m uid pid ≤ bestD m' uid pid := by
  obtain ⟨u, hu, rfl⟩ := scanStep_inv h
  by_cases huid : uid = s.user
  · subst huid
    rw [bestD_eq pid hu,
      bestD_eq pid (SMap.get?_set_self m s.user (scanUpd problems u s))]
    exact scanUpd_mono problems u s pid
  · unfold bestD
    rw [SMap.get?_set_ne m s.user uid _ (fun h' => huid h'.symm)]

theorem scanStep_present {problems : SMap Problem} {m m' : SMap User} {s : SubmitCtx}
    (h : scanStep problems m s = some m') {uid : String} {u : User}
    (hu : SMap.get? m uid = some u) : ∃ u', SMap.get? m' uid = some u' := by
  obtain ⟨v, hv, rfl⟩ := scanStep_inv h
  by_cases huid : uid = s.user
  · subst huid
    exact ⟨scanUpd problems v s, SMap.get?_set_self m s.user _⟩
  · exact ⟨u, by rw [SMap.get?_set_ne m s.user uid _ (fun h' => huid h'.symm)]; exact hu⟩

/-- Immediately after its own rescan step, a submission is saturated. -/
theorem scanStep_sat_self {problems : SMap Problem} {m m' : SMap User} {s : SubmitCtx}
    (h : scanStep problems m s = some m') : Sat problems m' s := by
  obtain ⟨u, hu, rfl⟩ := scanStep_inv h
  refine ⟨⟨scanUpd problems u s, SMap.get?_set_self m s.user _⟩, ?_⟩
  intro hst hsu p hp
  rw [bestD_eq s.problem (SMap.get?_set_self m s.user (scanUpd problems u s))]
  exact scanUpd_best_ge problems u s p hst hsu hp

/-- Saturation is preserved by any later rescan step. -/
theorem sat_preserved {problems : SMap Problem} {m m' : SMap User} {s t : SubmitCtx}
    (hsat : Sat problems m s) (h : scanStep problems m t = some m') :
    Sat problems m' s := by
  obtain ⟨⟨u, hu⟩, hbound⟩ := hsat
  refine ⟨scanStep_present h hu, ?_⟩
  intro hst hsu p hp
  exact le_trans (hbound hst hsu p hp) (scanStep_mono h s.user s.problem)

theorem fold_sat_preserved {problems : SMap Problem} {l : List SubmitCtx}
    {m m' : SMap User} {s : SubmitCtx} (hsat : Sat problems m s)
    (h : List.foldlM (scanStep problems) m l = some m') : Sat problems m' s := by
  induction l generalizing m with
  | nil =>
    simp only [List.foldlM_nil, Option.pure_def, Option.some.injEq] at h
    subst h; exact hsat
  | cons t rest ih =>
    simp only [List.foldlM_cons] at h
    cases hstep : scanStep problems m t with
    | none => rw [hstep] at h; exact absurd h (by simp)
    | some m₁ =>
      rw [hstep] at h
      exact ih (sat_preserved hsat hstep) h

/-- After the whole rescan fold succeeds, every scanned submission is
saturated in the final working map. -/
theorem fold_sat_all {problems : SMap Problem} {l : List SubmitCtx} {m m' : SMap User}
    (h : List.foldlM (scanStep problems) m l = some m') :
    ∀ s ∈ l, Sat problems m' s := by
  induction l generalizing m with
  | nil => intro s hs; exact absurd hs (by simp)
  | cons t rest ih =>
    simp only [List.foldlM_cons] at h
    cases hstep : scanStep problems m t with
    | none => rw [hstep] at h; exact absurd h (by simp)
    | some m₁ =>
      rw [hstep] at h
      intro s hs
      rcases List.mem_cons.1 hs with hst | hsrest
      · subst hst
        exact fold_sat_preserved (scanStep_sat_self hstep) h
      · exact ih h s hsrest

/-- A saturated map is a fixed point of `scanStep`. -/
theorem scanStep_sat_fix {problems : SMap Problem} {m : SMap User} {s : SubmitCtx}
    (hsat : Sat problems m s) : scanStep problems m s = some m := by
  obtain ⟨⟨u, hu⟩, hbound⟩ := hsat
  rw [scanStep_eq hu]
  suffices hfix : scanUpd problems u s = u by
    rw [hfix, SMap.set_get_self m s.user u hu]
  by_cases hrel : s.status = "completed" ∧ s.judge_result.success = true
  · cases hp : SMap.get? problems s.problem with
    | none => exact scanUpd_eq_noproblem problems u s hp
    | some p =>
      have hge := hbound hrel.1 hrel.2 p hp
      rw [bestD_eq s.problem hu] at hge
      exact scanUpd_eq_skip problems u s p hp (not_lt.2 hge)
  · exact scanUpd_eq_irrelevant problems u s hrel

theorem fold_sat_fix {problems : SMap Problem} {l : List SubmitCtx} {m : SMap User}
    (hall : ∀ s ∈ l, Sat problems m s) :
    List.foldlM (scanStep problems) m l = some m := by
  induction l with
  | nil => rfl
  | cons t rest ih =>
    simp only [List.foldlM_cons, scanStep_sat_fix (hall t (by simp))]
    exact ih fun s hs => hall s (List.mem_cons_of_mem t hs)

/-- Saturation survives the final total-score recomputation pass, which
changes no `best_scores` entry. -/
theorem sat_map_calc {problems : SMap Problem} {m : SMap User} {s : SubmitCtx}
    (hsat : Sat problems m s) :
    Sat problems (m.map fun p => (p.1, p.2.calculateTotalScore)) s := by
  obtain ⟨⟨u, hu⟩, hbound⟩ := hsat
  constructor
  · exact ⟨u.calculateTotalScore, by rw [SMap.get?_map_calc, hu]; rfl⟩
  · intro hst hsu p hp
    have hb : bestD (m.map fun p => (p.1, p.2.calculateTotalScore)) s.user s.problem
        = bestD m s.user s.problem := by
      rw [bestD_eq s.problem hu,
        bestD_eq s.problem (show SMap.get? _ s.user = some u.calculateTotalScore by
          rw [SMap.get?_map_calc, hu]; rfl)]
      rfl
    rw [hb]
    exact hbound hst hsu p hp

end SOJ

namespace SOJ

/-! ## Claim theorems: aggregator, reaper, Userface -/

/-- Concrete inputs refuting claim C1's missing-entry reading. -/
def cexUser1 : User := createUser "alice" "tok"

/-- A loaded problem with weight 1 for the C1 counterexample. -/
def cexProblem1 : Problem := { id := "p1", weight := 1, submits := [], workflow := [] }

/-- A completed, successful submission with negative score for the C1
counterexample. -/
def cexSubmit1 : SubmitCtx :=
  { id := "100", user := "alice", problem := "p1", submit_time := 100,
    last_update := 100, status := "completed", msg := "",
    submits_hashes := [], workflow_results := [],
    judge_result := { success := true, score := -1, msg := "", memory := 0, time := 0 } }

/-- C1 counterexample: a completed successful submission whose weighted
score is negative, for a user with no prior `best_scores` entry, does NOT
install its score — the missing entry is compared as the Go zero value `0`,
not as `-∞` — in both the incremental update and the full-rescan step. -/
theorem negative_first_score_not_installed :
    cexSubmit1.status = "completed" ∧
    cexSubmit1.judge_result.success = true ∧
    cexSubmit1.judge_result.score * cexProblem1.weight < 0 ∧
    SMap.get? cexUser1.best_scores "p1" = none ∧
    SMap.get? (updateUserSubmitResult cexUser1 cexSubmit1 cexProblem1).best_scores "p1"
      = none ∧
    scanStep [("p1", cexProblem1)] [("alice", cexUser1)] cexSubmit1
      = some [("alice", cexUser1)] := by
  refine ⟨rfl, rfl, by norm_num [cexSubmit1, cexProblem1], rfl, ?_, ?_⟩
  · norm_num [updateUserSubmitResult, updateUser, User.calculateTotalScore,
      cexUser1, createUser, cexSubmit1, cexProblem1, SMap.getD, SMap.get?]
  · norm_num [scanStep, scanUpd, cexUser1, createUser, cexSubmit1, cexProblem1,
      SMap.getD, SMap.get?, SMap.set]

/-- C1 (amended): for a completed successful submission, both the
incremental aggregator update and the full-rescan step update the three
best maps exactly when the weighted score is strictly greater than the
current `best_scores` entry read with the Go zero-value default `0` for a
missing key (so a first submission installs its score only when the
weighted score is strictly positive). -/
theorem best_update_zero_default_rule (u : User) (s : SubmitCtx) (p : Problem)
    (m : SMap User) (problems : SMap Problem)
    (hst : s.status = "completed") (hsu : s.judge_result.success = true)
    (hm : SMap.get? m s.user = some u) (hp : SMap.get? problems s.problem = some p) :
    (SMap.getD u.best_scores s.problem 0 < s.judge_result.score * p.weight →
      (updateUserSubmitResult u s p).best_scores
          = SMap.set u.best_scores s.problem (s.judge_result.score * p.weight) ∧
      (updateUserSubmitResult u s p).best_submits
          = SMap.set u.best_submits s.problem s.id ∧
      (updateUserSubmitResult u s p).best_submit_date
          = SMap.set u.best_submit_date s.problem s.submit_time ∧
      scanStep problems m s = some (SMap.set m s.user
        { u with
          best_scores := SMap.set u.best_scores s.problem
            (s.judge_result.score * p.weight)
          best_submits := SMap.set u.best_submits s.problem s.id
          best_submit_date := SMap.set u.best_submit_date s.problem s.submit_time })) ∧
    (¬ SMap.getD u.best_scores s.problem 0 < s.judge_result.score * p.weight →
      (updateUserSubmitResult u s p).best_scores = u.best_scores ∧
      (updateUserSubmitResult u s p).best_submits = u.best_submits ∧
      (updateUserSubmitResult u s p).best_submit_date = u.best_submit_date ∧
      scanStep problems m s = some (SMap.set m s.user u)) := by
  constructor
  · intro hlt
    simp [updateUserSubmitResult, updateUser, User.calculateTotalScore, scanStep,
      scanUpd, hst, hsu, hm, hp, hlt]
  · intro hlt
    simp [updateUserSubmitResult, updateUser, User.calculateTotalScore, scanStep,
      scanUpd, hst, hsu, hm, hp, hlt]

/-- A score-50 variant of `cexSubmit1`, used by witnesses. -/
def wSubmit50 : SubmitCtx :=
  { cexSubmit1 with judge_result := { cexSubmit1.judge_result with score := 50 } }

/-- Witness for `best_update_zero_default_rule` at a concrete input. -/
theorem best_update_zero_default_rule_witness :
    SMap.getD cexUser1.best_scores "p1" 0 < wSubmit50.judge_result.score * cexProblem1.weight ∧
    (updateUserSubmitResult cexUser1 wSubmit50 cexProblem1).best_scores
      = SMap.set cexUser1.best_scores "p1"
          (wSubmit50.judge_result.score * cexProblem1.weight) :=
  ⟨by norm_num [cexUser1, createUser, wSubmit50, cexSubmit1, cexProblem1,
      SMap.getD, SMap.get?],
    ((best_update_zero_default_rule cexUser1 wSubmit50 cexProblem1
      [("alice", cexUser1)] [("p1", cexProblem1)]
      rfl rfl (by simp [SMap.get?, wSubmit50, cexSubmit1])
      (by simp [SMap.get?, wSubmit50, cexSubmit1])).1
      (by norm_num [cexUser1, createUser, wSubmit50, cexSubmit1, cexProblem1,
        SMap.getD, SMap.get?])).1⟩

/-- C2: every operation that persists a User re-establishes
`total_score = Σ best_scores` before writing: user creation, the plain
save, the incremental update, every record written by the full rescan, and
the targeted rescan. -/
theorem total_score_invariant :
    (∀ userID token, (createUser userID token).total_score
        = SMap.sumValues (createUser userID token).best_scores) ∧
    (∀ u : User, (updateUser u).total_score
        = SMap.sumValues (updateUser u).best_scores) ∧
    (∀ (u : User) (s : SubmitCtx) (p : Problem),
      (updateUserSubmitResult u s p).total_score
        = SMap.sumValues (updateUserSubmitResult u s p).best_scores) ∧
    (∀ (problems : SMap Problem) (users : SMap User) (submits : List SubmitCtx)
        (m : SMap User), doFullUserScan problems users submits = some m →
      ∀ e ∈ m, e.2.total_score = SMap.sumValues e.2.best_scores) ∧
    (∀ (problems : SMap Problem) (user : User) (cs : List SubmitCtx),
      (recalculateUserBestScoresWithProblems problems user cs).total_score
        = SMap.sumValues
            (recalculateUserBestScoresWithProblems problems user cs).best_scores) := by
  refine ⟨?_, ?_, ?_, ?_, ?_⟩
  · intro userID token
    simp [createUser, SMap.sumValues]
  · intro u
    simp [updateUser, User.calculateTotalScore]
  · intro u s p
    simp [updateUserSubmitResult, updateUser, User.calculateTotalScore]
  · intro problems users submits m hscan e he
    unfold doFullUserScan at hscan
    cases hfold : submits.foldlM (scanStep problems) users with
    | none => rw [hfold] at hscan; exact absurd hscan (by simp)
    | some m' =>
      rw [hfold] at hscan
      simp only [Option.some.injEq] at hscan
      subst hscan
      rcases List.mem_map.1 he with ⟨q, _, hq⟩
      subst hq
      simp [User.calculateTotalScore]
  · intro problems user cs
    simp [recalculateUserBestScoresWithProblems, updateUser, User.calculateTotalScore]

/-- Witness for `total_score_invariant` at a concrete full-rescan input. -/
theorem total_score_invariant_witness :
    doFullUserScan [("p1", cexProblem1)] [("alice", cexUser1)] [cexSubmit1]
        = some [("alice", updateUser cexUser1)] ∧
    ("alice", updateUser cexUser1) ∈ [("alice", updateUser cexUser1)] ∧
    (updateUser cexUser1).total_score
      = SMap.sumValues (updateUser cexUser1).best_scores := by
  have hscan : doFullUserScan [("p1", cexProblem1)] [("alice", cexUser1)] [cexSubmit1]
      = some [("alice", updateUser cexUser1)] := by
    norm_num [doFullUserScan, scanStep, scanUpd, cexUser1, createUser, cexSubmit1, cexProblem1,
      SMap.getD, SMap.get?, SMap.set, updateUser, User.calculateTotalScore, List.foldlM]
  exact ⟨hscan, by simp,
    total_score_invariant.2.2.2.1 [("p1", cexProblem1)] [("alice", cexUser1)]
      [cexSubmit1] [("alice", updateUser cexUser1)] hscan
      ("alice", updateUser cexUser1) (by simp)⟩

/-- C3: after the startup reaper runs, every persisted submission has a
status in the set of completed, failed and dead; any record whose status
is outside that set is rewritten to dead, and terminal records are left
unchanged. -/
theorem reaper_terminal_status :
    (∀ (table : List SubmitCtx) (s : SubmitCtx), s ∈ reap table →
      s.status = "completed" ∨ s.status = "failed" ∨ s.status = "dead") ∧
    (∀ t : SubmitCtx,
      ((t.status ≠ "completed" ∧ t.status ≠ "failed" ∧ t.status ≠ "dead") →
        reaperStep t = { t with status := "dead" }) ∧
      ((t.status = "completed" ∨ t.status = "failed" ∨ t.status = "dead") →
        reaperStep t = t)) := by
  constructor
  · intro table s hs
    rcases List.mem_map.1 hs with ⟨t, _, ht⟩
    subst ht
    unfold reaperStep
    split
    · right; right; rfl
    · rename_i hcond
      push_neg at hcond
      by_cases h1 : t.status = "completed"
      · left; exact h1
      · by_cases h2 : t.status = "dead"
        · right; right; exact h2
        · right; left; exact hcond h1 h2
  · intro t
    constructor
    · intro ⟨h1, h2, h3⟩
      unfold reaperStep
      rw [if_pos ⟨h1, h3, h2⟩]
    · intro h
      unfold reaperStep
      rw [if_neg]
      push_neg
      intro h1 h3
      rcases h with h | h | h
      · exact absurd h h1
      · exact h
      · exact absurd h h3

/-- Witness for `reaper_terminal_status` on a one-row table with a
non-terminal status. -/
theorem reaper_terminal_status_witness :
    reaperStep { cexSubmit1 with status := "run_workflow-0_2" } ∈
      reap [{ cexSubmit1 with status := "run_workflow-0_2" }] ∧
    ((reaperStep { cexSubmit1 with status := "run_workflow-0_2" }).status = "completed" ∨
     (reaperStep { cexSubmit1 with status := "run_workflow-0_2" }).status = "failed" ∨
     (reaperStep { cexSubmit1 with status := "run_workflow-0_2" }).status = "dead") ∧
    reaperStep { cexSubmit1 with status := "run_workflow-0_2" }
      = { cexSubmit1 with status := "dead" } := by
  refine ⟨by simp [reap], ?_, ?_⟩
  · exact reaper_terminal_status.1 [{ cexSubmit1 with status := "run_workflow-0_2" }]
      _ (by simp [reap])
  · exact (reaper_terminal_status.2 { cexSubmit1 with status := "run_workflow-0_2" }).1
      (by refine ⟨?_, ?_, ?_⟩ <;> decide)

/-- C5: best maps are updated only on strict inequality.  If a second
completed successful submission for the same problem has the same weighted
score as the one just installed, the best maps are untouched:
`best_submits` keeps the first submission's id. -/
theorem equal_score_tie_keeps_first (u : User) (s1 s2 : SubmitCtx) (p : Problem)
    (h1s : s1.status = "completed") (h1u : s1.judge_result.success = true)
    (h2s : s2.status = "completed") (h2u : s2.judge_result.success = true)
    (hpr : s2.problem = s1.problem)
    (heq : s2.judge_result.score * p.weight = s1.judge_result.score * p.weight)
    (hgt : SMap.getD u.best_scores s1.problem 0 < s1.judge_result.score * p.weight) :
    SMap.get? (updateUserSubmitResult (updateUserSubmitResult u s1 p) s2 p).best_submits
        s1.problem = some s1.id ∧
    (updateUserSubmitResult (updateUserSubmitResult u s1 p) s2 p).best_scores
      = (updateUserSubmitResult u s1 p).best_scores ∧
    (updateUserSubmitResult (updateUserSubmitResult u s1 p) s2 p).best_submits
      = (updateUserSubmitResult u s1 p).best_submits ∧
    (updateUserSubmitResult (updateUserSubmitResult u s1 p) s2 p).best_submit_date
      = (updateUserSubmitResult u s1 p).best_submit_date := by
  obtain ⟨h1, h1sub, _⟩ := updateUserSubmitResult_install u s1 p h1s h1u hgt
  have hcur : SMap.getD (updateUserSubmitResult u s1 p).best_scores s2.problem 0
      = s1.judge_result.score * p.weight := by
    rw [hpr, h1, SMap.getD_set_self]
  have hno : ¬ SMap.getD (updateUserSubmitResult u s1 p).best_scores s2.problem 0
      < s2.judge_result.score * p.weight := by
    rw [hcur, heq]
    exact lt_irrefl _
  obtain ⟨k1, k2, k3⟩ := updateUserSubmitResult_skip (updateUserSubmitResult u s1 p)
    s2 p hno
  refine ⟨?_, k1, k2, k3⟩
  rw [k2, h1sub, SMap.get?_set_self]

/-- Witness for `equal_score_tie_keeps_first`: two identical score-50
submissions with different ids. -/
theorem equal_score_tie_keeps_first_witness :
    SMap.get? (updateUserSubmitResult
        (updateUserSubmitResult cexUser1 wSubmit50 cexProblem1)
        { wSubmit50 with id := "200", submit_time := 200 } cexProblem1).best_submits
      "p1" = some "100" := by
  have h := equal_score_tie_keeps_first cexUser1 wSubmit50
    { wSubmit50 with id := "200", submit_time := 200 } cexProblem1
    rfl rfl rfl rfl rfl rfl
    (by norm_num [cexUser1, createUser, wSubmit50, cexSubmit1, cexProblem1,
      SMap.getD, SMap.get?])
  exact h.1

/-- C9: admin rescoring forces status completed, derives
`judge_result.success` from strict positivity of the new score, stores the
new score and message, and recomputes the user's best maps from that
user's completed submissions in the updated store. -/
theorem modify_submission_rescore (problems : SMap Problem) (store : List SubmitCtx)
    (user : User) (submitID : String) (score : ℚ) (message : String) (now : Int)
    (submit : SubmitCtx)
    (hfind : store.find? (fun t => t.id = submitID) = some submit) :
    (modifySubmissionResult submit score message).status = "completed" ∧
    ((modifySubmissionResult submit score message).judge_result.success = true ↔
      0 < score) ∧
    (modifySubmissionResult submit score message).judge_result.score = score ∧
    (modifySubmissionResult submit score message).msg = message ∧
    modifySubmissionResultOp problems store user submitID score message now
      = some
        (store.map fun t => if t.id = submitID then
            { modifySubmissionResult submit score message with last_update := now }
          else t,
         recalculateUserBestScoresWithProblems problems user
          ((store.map fun t => if t.id = submitID then
              { modifySubmissionResult submit score message with last_update := now }
            else t).filter
            fun t => t.user = submit.user ∧ t.status = "completed")) := by
  refine ⟨rfl, ?_, rfl, rfl, ?_⟩
  · simp [modifySubmissionResult]
  · simp [modifySubmissionResultOp, hfind]

/-- Witness for `modify_submission_rescore`: rescore the stored negative
submission to 0 — it stays completed but becomes unsuccessful. -/
theorem modify_submission_rescore_witness :
    ([cexSubmit1].find? (fun t => t.id = "100") = some cexSubmit1) ∧
    (modifySubmissionResult cexSubmit1 0 "rescored").status = "completed" ∧
    ¬ ((modifySubmissionResult cexSubmit1 0 "rescored").judge_result.success = true) := by
  have hfind : [cexSubmit1].find? (fun t => t.id = "100") = some cexSubmit1 := by
    simp [List.find?, cexSubmit1]
  have h := modify_submission_rescore [("p1", cexProblem1)] [cexSubmit1] cexUser1
    "100" 0 "rescored" 999 cexSubmit1 hfind
  exact ⟨hfind, h.1, fun hs => absurd (h.2.1.1 hs) (by norm_num)⟩

/-- C8: the aggregator full rescan is idempotent.  If a full rescan of the
store succeeds and produces the users table `us1`, a second full rescan
over the same submissions starting from `us1` succeeds and produces `us1`
unchanged. -/
theorem full_rescan_idempotent (problems : SMap Problem) (users us1 : SMap User)
    (submits : List SubmitCtx)
    (h : doFullUserScan problems users submits = some us1) :
    doFullUserScan problems us1 submits = some us1 := by
  unfold doFullUserScan at h ⊢
  cases hf : submits.foldlM (scanStep problems) users with
  | none => rw [hf] at h; exact absurd h (by simp)
  | some m1 =>
    rw [hf] at h
    simp only [Option.some.injEq] at h
    subst h
    have hall : ∀ s ∈ submits, Sat problems m1 s := fold_sat_all hf
    have hall2 : ∀ s ∈ submits,
        Sat problems (m1.map fun p => (p.1, p.2.calculateTotalScore)) s :=
      fun s hs => sat_map_calc (hall s hs)
    rw [fold_sat_fix hall2]
    show some ((m1.map fun p => (p.1, p.2.calculateTotalScore)).map
        fun p => (p.1, p.2.calculateTotalScore))
      = some (m1.map fun p => (p.1, p.2.calculateTotalScore))
    rw [map_calc_idem]

/-- Witness for `full_rescan_idempotent` on a one-user, one-submission
store. -/
theorem full_rescan_idempotent_witness :
    doFullUserScan [("p1", cexProblem1)] [("alice", cexUser1)] [cexSubmit1]
        = some [("alice", cexUser1.calculateTotalScore)] ∧
    doFullUserScan [("p1", cexProblem1)] [("alice", cexUser1.calculateTotalScore)]
        [cexSubmit1]
      = some [("alice", cexUser1.calculateTotalScore)] := by
  have h1 : doFullUserScan [("p1", cexProblem1)] [("alice", cexUser1)] [cexSubmit1]
      = some [("alice", cexUser1.calculateTotalScore)] := by
    norm_num [doFullUserScan, scanStep, scanUpd, cexUser1, createUser, cexSubmit1,
      cexProblem1, SMap.getD, SMap.get?, SMap.set, List.foldlM]
  exact ⟨h1, full_rescan_idempotent [("p1", cexProblem1)] [("alice", cexUser1)]
    [("alice", cexUser1.calculateTotalScore)] [cexSubmit1] h1⟩

/-- Invariant of the step loop on success: one result per step, and every
newly recorded step result has exit code 0. -/
theorem runSteps_ok_inv {world : JudgeWorld} {widx : Nat} {steps : List String}
    {sidx : Nat} {acc acc' : List WorkflowStepResult} {trace trace' : List (Nat × Nat)}
    (h : runSteps world widx steps sidx acc trace = (none, acc', trace')) :
    acc'.length = acc.length + steps.length ∧
    ∀ st ∈ acc', st ∈ acc ∨ st.exit_code = 0 := by
  induction steps generalizing sidx acc trace with
  | nil =>
    simp only [runSteps, Prod.mk.injEq] at h
    obtain ⟨-, h2, -⟩ := h
    subst h2
    exact ⟨by simp, fun st hst => Or.inl hst⟩
  | cons stp rest ih =>
    unfold runSteps at h
    by_cases hc : (world.exec widx sidx).ec ≠ 0 ∨ (world.exec widx sidx).err = true
    · rw [if_pos hc] at h
      exact absurd h (by simp)
    · rw [if_neg hc] at h
      push_neg at hc
      obtain ⟨hlen, hmem⟩ := ih h
      constructor
      · simp only [List.length_append, List.length_cons, List.length_nil] at hlen ⊢
        omega
      · intro st hst
        rcases hmem st hst with hin | hzero
        · rcases List.mem_append.1 hin with hin2 | hin2
          · exact Or.inl hin2
          · simp at hin2
            subst hin2
            exact Or.inr hc.1
        · exact Or.inr hzero

/-- Invariant of the workflow loop on success: one result per workflow,
and every newly appended workflow result has only exit-code-0 steps. -/
theorem runWorkflows_ok_inv {world : JudgeWorld} {wfs : List Workflow} {widx : Nat}
    {results results' : List WorkflowResult} {created created' : List String}
    {trace trace' : List (Nat × Nat)}
    (h : runWorkflows world wfs widx results created trace
      = .ok results' created' trace') :
    results'.length = results.length + wfs.length ∧
    ∀ wr ∈ results', wr ∈ results ∨ ∀ st ∈ wr.steps, st.exit_code = 0 := by
  induction wfs generalizing widx results created trace with
  | nil =>
    simp only [runWorkflows, WfOut.ok.injEq] at h
    obtain ⟨h1, -, -⟩ := h
    subst h1
    exact ⟨by simp, fun wr hwr => Or.inl hwr⟩
  | cons wf rest ih =>
    unfold runWorkflows at h
    cases hri : world.runImage widx with
    | none => rw [hri] at h; exact absurd h (by simp)
    | some cid =>
      rw [hri] at h
      rcases hrs : runSteps world widx wf.steps 0 [] trace with ⟨o, stps, trace₁⟩
      rw [hrs] at h
      cases o with
      | some msg => exact absurd h (by simp)
      | none =>
        cases hgl : world.getLogs widx with
        | none => rw [hgl] at h; exact absurd h (by simp)
        | some logs =>
          rw [hgl] at h
          obtain ⟨hlen, hmem⟩ := ih h
          constructor
          · simp only [List.length_append, List.length_cons, List.length_nil] at hlen ⊢
            omega
          · intro wr hwr
            rcases hmem wr hwr with hin | hzero
            · rcases List.mem_append.1 hin with hin2 | hin2
              · exact Or.inl hin2
              · simp at hin2
                subst hin2
                refine Or.inr ?_
                intro st hst
                rcases (runSteps_ok_inv hrs).2 st hst with habs | hz
                · exact absurd habs (by simp)
                · exact hz
            · exact Or.inr hzero

/-- Inversion of the post-staging tail: a completed outcome means the
workflow loop succeeded and its results are the outcome's results. -/
theorem runJudgeAfterStage_completed_inv {world : JudgeWorld}
    {hashes : List SubmitHash} {jr0 : JudgeResult} {w : WfOut}
    (h : (runJudgeAfterStage world hashes jr0 w).status = "completed") :
    ∃ results created trace, w = .ok results created trace ∧
      (runJudgeAfterStage world hashes jr0 w).workflow_results = results := by
  cases w with
  | fail msg results created trace => simp [runJudgeAfterStage] at h
  | ok results created trace =>
    refine ⟨results, created, trace, rfl, ?_⟩
    cases hr : world.readResultFile with
    | none => simp [runJudgeAfterStage, hr]
    | some bytes =>
      cases hp : world.parseResult bytes with
      | none => simp [runJudgeAfterStage, hr, hp]
      | some jr => simp [runJudgeAfterStage, hr, hp]

/-- Inversion of `runJudge` at a completed outcome: directory preparation
and staging succeeded and the outcome is the post-staging tail. -/
theorem runJudge_completed_inv {world : JudgeWorld} {problem : Problem}
    {ctx0 : SubmitCtx} (h : (runJudge world problem ctx0).status = "completed") :
    ∃ hashes,
      stageSubmits world problem.submits ctx0.submits_hashes = .ok hashes ∧
      runJudge world problem ctx0 = runJudgeAfterStage world hashes ctx0.judge_result
        (runWorkflows world problem.workflow 0 ctx0.workflow_results [] []) := by
  unfold runJudge at h ⊢
  by_cases hmk : (world.mkdirWorkdirOk && world.mkdirSubmitsOk && world.mkdirWorkOk
      && world.chownWorkdirOk && world.chownSubmitsOk && world.chownWorkOk) = true
  · rw [if_pos hmk] at h ⊢
    cases hst : stageSubmits world problem.submits ctx0.submits_hashes with
    | ok hashes => exact ⟨hashes, rfl, rfl⟩
    | fail msg hashes => rw [hst] at h; simp at h
  · rw [if_neg hmk] at h
    simp at h

/-- C4: a pipeline run that ends completed has exactly one workflow result
per problem workflow, and every recorded step result has exit code 0 (the
submission context enters the pipeline with an empty results list, as the
coordinator creates it). -/
theorem completed_has_full_results (world : JudgeWorld) (problem : Problem)
    (ctx0 : SubmitCtx) (hinit : ctx0.workflow_results = [])
    (hc : (runJudge world problem ctx0).status = "completed") :
    (runJudge world problem ctx0).workflow_results.length
        = problem.workflow.length ∧
    ∀ wr ∈ (runJudge world problem ctx0).workflow_results,
      ∀ st ∈ wr.steps, st.exit_code = 0 := by
  obtain ⟨hashes, hst, heq⟩ := runJudge_completed_inv hc
  rw [heq] at hc ⊢
  obtain ⟨results, created, trace, hw, hres⟩ := runJudgeAfterStage_completed_inv hc
  rw [hres]
  rw [hinit] at hw
  obtain ⟨hlen, hmem⟩ := runWorkflows_ok_inv hw
  refine ⟨by simpa using hlen, ?_⟩
  intro wr hwr
  rcases hmem wr hwr with habs | hz
  · exact absurd habs (by simp)
  · exact hz

/-- A judge world where every external effect succeeds, for witnesses. -/
def wWorldOk : JudgeWorld :=
  { mkdirWorkdirOk := true, mkdirSubmitsOk := true, mkdirWorkOk := true
    chownWorkdirOk := true, chownSubmitsOk := true, chownWorkOk := true
    copyResult := fun _ => some "d41d8cd98f00b204e9800998ecf8427e"
    walkEvents := fun _ => []
    runImage := fun i => some ("c" ++ toString i)
    exec := fun _ _ => { ec := 0, logs := "", err := false }
    getLogs := fun _ => some "container logs"
    readResultFile := some "result bytes"
    parseResult := fun _ =>
      some { success := true, score := 80, msg := "ok", memory := 0, time := 0 } }

/-- A two-step workflow for witnesses. -/
def wWfHello : Workflow :=
  { image := "python:3"
    steps := ["python /submits/main.py > /work/out", "emit result"]
    timeout := 10, root := false, disable_network := false
    showSteps := [1], privileged_steps := []
    network_host_mode := false, mounts := [] }

/-- A one-workflow, two-step problem for witnesses. -/
def wProblemHello : Problem :=
  { id := "hello", weight := 2
    submits := [{ path := "main.py", is_dir := false }]
    workflow := [wWfHello] }

/-- A freshly created submission context for witnesses. -/
def wCtxFresh : SubmitCtx :=
  { id := "300", user := "alice", problem := "hello", submit_time := 300
    last_update := 300, status := "init", msg := "", submits_hashes := []
    workflow_results := []
    judge_result := { success := false, score := 0, msg := "", memory := 0, time := 0 } }

/-- Witness for `completed_has_full_results` on a fully succeeding world. -/
theorem completed_has_full_results_witness :
    wCtxFresh.workflow_results = [] ∧
    (runJudge wWorldOk wProblemHello wCtxFresh).status = "completed" ∧
    (runJudge wWorldOk wProblemHello wCtxFresh).workflow_results.length
        = wProblemHello.workflow.length ∧
    ∀ wr ∈ (runJudge wWorldOk wProblemHello wCtxFresh).workflow_results,
      ∀ st ∈ wr.steps, st.exit_code = 0 := by
  have hc : (runJudge wWorldOk wProblemHello wCtxFresh).status = "completed" := rfl
  obtain ⟨h1, h2⟩ := completed_has_full_results wWorldOk wProblemHello wCtxFresh rfl hc
  exact ⟨rfl, hc, h1, h2⟩

/-- When every step of the (sub)list succeeds, the step loop returns no
failure and only adds exec-trace entries for this workflow below the list
end. -/
theorem runSteps_ok_of_all {world : JudgeWorld} {widx : Nat} (steps : List String)
    (sidx : Nat) (acc : List WorkflowStepResult) (trace : List (Nat × Nat))
    (hok : ∀ k, sidx ≤ k → k < sidx + steps.length →
      (world.exec widx k).ec = 0 ∧ (world.exec widx k).err = false) :
    ∃ acc' trace', runSteps world widx steps sidx acc trace = (none, acc', trace') ∧
      ∀ q ∈ trace', q ∈ trace ∨ (q.1 = widx ∧ sidx ≤ q.2 ∧ q.2 < sidx + steps.length) := by
  induction steps generalizing sidx acc trace with
  | nil => exact ⟨acc, trace, rfl, fun q hq => Or.inl hq⟩
  | cons stp rest ih =>
    have h0 := hok sidx (le_refl _) (by simp)
    have hcond : ¬ ((world.exec widx sidx).ec ≠ 0 ∨ (world.exec widx sidx).err = true) := by
      rw [h0.1, h0.2]
      simp
    unfold runSteps
    rw [if_neg hcond]
    obtain ⟨acc', trace', hrs, htr⟩ := ih (sidx + 1)
      (acc ++ [{ logs := (world.exec widx sidx).logs,
                 exit_code := (world.exec widx sidx).ec }])
      (trace ++ [(widx, sidx)])
      (fun k hk1 hk2 => hok k (by omega) (by simp at hk2 ⊢; omega))
    refine ⟨acc', trace', hrs, ?_⟩
    intro q hq
    rcases htr q hq with hin | hbnd
    · rcases List.mem_append.1 hin with hin2 | hin2
      · exact Or.inl hin2
      · simp at hin2
        subst hin2
        exact Or.inr ⟨rfl, le_refl _, by simp⟩
    · exact Or.inr ⟨hbnd.1, by omega, by simp at hbnd ⊢; omega⟩

/-- When the steps before `sidx` succeed and the exec at `sidx` fails, the
step loop aborts with the 1-based-indexed failure message, and the exec
trace grows only by entries of this workflow up to `sidx`. -/
theorem runSteps_fail_at {world : JudgeWorld} {widx : Nat} (steps : List String)
    (s0 : Nat) (acc : List WorkflowStepResult) (trace : List (Nat × Nat)) (sidx : Nat)
    (hlow : s0 ≤ sidx) (hlt : sidx - s0 < steps.length)
    (hok : ∀ k, s0 ≤ k → k < sidx →
      (world.exec widx k).ec = 0 ∧ (world.exec widx k).err = false)
    (hfail : (world.exec widx sidx).ec ≠ 0 ∨ (world.exec widx sidx).err = true) :
    ∃ acc' trace', runSteps world widx steps s0 acc trace
        = (some ("failed to run judge " ++ toString (widx + 1) ++ " step "
            ++ toString (sidx + 1)), acc', trace') ∧
      ∀ q ∈ trace', q ∈ trace ∨ (q.1 = widx ∧ s0 ≤ q.2 ∧ q.2 ≤ sidx) := by
  induction steps generalizing s0 acc trace with
  | nil => simp at hlt
  | cons stp rest ih =>
    by_cases heq : s0 = sidx
    · subst heq
      unfold runSteps
      rw [if_pos hfail]
      refine ⟨acc, trace ++ [(widx, s0)], rfl, ?_⟩
      intro q hq
      rcases List.mem_append.1 hq with hin | hin
      · exact Or.inl hin
      · simp at hin
        subst hin
        exact Or.inr ⟨rfl, le_refl _, le_refl _⟩
    · have hslt : s0 < sidx := lt_of_le_of_ne hlow heq
      have h0 := hok s0 (le_refl _) hslt
      have hcond : ¬ ((world.exec widx s0).ec ≠ 0 ∨ (world.exec widx s0).err = true) := by
        rw [h0.1, h0.2]
        simp
      unfold runSteps
      rw [if_neg hcond]
      obtain ⟨acc', trace', hrs, htr⟩ := ih (s0 + 1)
        (acc ++ [{ logs := (world.exec widx s0).logs,
                   exit_code := (world.exec widx s0).ec }])
        (trace ++ [(widx, s0)])
        (by omega) (by simp at hlt ⊢; omega)
        (fun k hk1 hk2 => hok k (by omega) hk2)
      refine ⟨acc', trace', hrs, ?_⟩
      intro q hq
      rcases htr q hq with hin | hbnd
      · rcases List.mem_append.1 hin with hin2 | hin2
        · exact Or.inl hin2
        · simp at hin2
          subst hin2
          exact Or.inr ⟨rfl, le_refl _, by omega⟩
      · exact Or.inr ⟨hbnd.1, by omega, hbnd.2.2⟩

/-- When workflows `i..widx-1` run clean, the container for workflow
`widx` is created, its steps before `sidx` succeed and the exec at `sidx`
fails, the workflow loop aborts with the step-failure message, the failing
workflow's container is among the created (hence cleaned) containers, and
the exec trace never goes past `(widx, sidx)`. -/
theorem runWorkflows_fail_at {world : JudgeWorld} (ws : List Workflow) (i : Nat)
    (widx sidx : Nat) (wf : Workflow) (cid : String)
    (results : List WorkflowResult) (created : List String) (trace : List (Nat × Nat))
    (hile : i ≤ widx)
    (hwf : ws[widx - i]? = some wf)
    (himg : ∀ j, i ≤ j → j < widx → (world.runImage j).isSome = true)
    (hsteps : ∀ j wfj, i ≤ j → j < widx → ws[j - i]? = some wfj →
      ∀ k, k < wfj.steps.length →
        (world.exec j k).ec = 0 ∧ (world.exec j k).err = false)
    (hlogs : ∀ j, i ≤ j → j < widx → (world.getLogs j).isSome = true)
    (hprev : ∀ k, k < sidx → (world.exec widx k).ec = 0 ∧ (world.exec widx k).err = false)
    (hsx : sidx < wf.steps.length)
    (hfail : (world.exec widx sidx).ec ≠ 0 ∨ (world.exec widx sidx).err = true)
    (hcid : world.runImage widx = some cid) :
    ∃ results' created' trace',
      runWorkflows world ws i results created trace
        = .fail ("failed to run judge " ++ toString (widx + 1) ++ " step "
            ++ toString (sidx + 1)) results' created' trace' ∧
      cid ∈ created' ∧
      ∀ q ∈ trace', q ∈ trace ∨ q.1 < widx ∨ (q.1 = widx ∧ q.2 ≤ sidx) := by
  induction ws generalizing i results created trace with
  | nil => simp at hwf
  | cons wf0 rest ih =>
    by_cases hieq : i = widx
    · subst hieq
      rw [Nat.sub_self] at hwf
      simp only [List.getElem?_cons_zero, Option.some.injEq] at hwf
      subst hwf
      unfold runWorkflows
      rw [hcid]
      obtain ⟨acc', trace', hrs, htr⟩ := runSteps_fail_at wf0.steps 0 [] trace sidx
        (Nat.zero_le _) (by omega) (fun k _ hk => hprev k hk) hfail
      rw [hrs]
      refine ⟨results, created ++ [cid], trace', rfl, by simp, ?_⟩
      intro q hq
      rcases htr q hq with hin | hbnd
      · exact Or.inl hin
      · exact Or.inr (Or.inr ⟨hbnd.1, hbnd.2.2⟩)
    · have hlt : i < widx := lt_of_le_of_ne hile hieq
      obtain ⟨ci, hci⟩ := Option.isSome_iff_exists.1 (himg i (le_refl _) hlt)
      have hwf0 : (wf0 :: rest)[i - i]? = some wf0 := by simp [Nat.sub_self]
      have hok0 := hsteps i wf0 (le_refl _) hlt hwf0
      obtain ⟨acc', trace1, hrs, htr1⟩ := runSteps_ok_of_all wf0.steps 0 [] trace
        (fun k _ hk => hok0 k (by omega))
      obtain ⟨lg, hlg⟩ := Option.isSome_iff_exists.1 (hlogs i (le_refl _) hlt)
      unfold runWorkflows
      rw [hci, hrs, hlg]
      have hd : widx - i = (widx - (i + 1)) + 1 := by omega
      rw [hd] at hwf
      obtain ⟨results', created', trace', hrw, hmem, htr⟩ := ih (i + 1)
        (results ++ [{ success := true, logs := lg, exit_code := 0, steps := acc' }])
        (created ++ [ci]) trace1
        (by omega)
        (by simpa using hwf)
        (fun j hj1 hj2 => himg j (by omega) hj2)
        (fun j wfj hj1 hj2 hg => hsteps j wfj (by omega) hj2 (by
          have hji : j - i = (j - (i + 1)) + 1 := by omega
          rw [hji]
          simpa using hg))
        (fun j hj1 hj2 => hlogs j (by omega) hj2)
      refine ⟨results', created', trace', hrw, hmem, ?_⟩
      intro q hq
      rcases htr q hq with hin | hrest
      · rcases htr1 q hin with hin2 | hbnd
        · exact Or.inl hin2
        · exact Or.inr (Or.inl (hbnd.1 ▸ hlt))
      · exact Or.inr hrest

/-- C6: a step exec returning a non-zero exit code or an error makes the
submission fail with exactly the message
`failed to run judge <widx+1> step <sidx+1>` (1-based indices), runs no
exec past that step, and the failing workflow's container is cleaned
before the judge routine returns. -/
theorem step_failure_aborts_pipeline (world : JudgeWorld) (problem : Problem)
    (ctx0 : SubmitCtx) (widx sidx : Nat) (wf : Workflow) (cid : String)
    (hashes : List SubmitHash)
    (hmk : (world.mkdirWorkdirOk && world.mkdirSubmitsOk && world.mkdirWorkOk
      && world.chownWorkdirOk && world.chownSubmitsOk && world.chownWorkOk) = true)
    (hst : stageSubmits world problem.submits ctx0.submits_hashes = .ok hashes)
    (hwf : problem.workflow[widx]? = some wf)
    (himg : ∀ j, j < widx → (world.runImage j).isSome = true)
    (hsteps : ∀ j wfj, j < widx → problem.workflow[j]? = some wfj →
      ∀ k, k < wfj.steps.length →
        (world.exec j k).ec = 0 ∧ (world.exec j k).err = false)
    (hlogs : ∀ j, j < widx → (world.getLogs j).isSome = true)
    (hprev : ∀ k, k < sidx →
      (world.exec widx k).ec = 0 ∧ (world.exec widx k).err = false)
    (hsx : sidx < wf.steps.length)
    (hfail : (world.exec widx sidx).ec ≠ 0 ∨ (world.exec widx sidx).err = true)
    (hcid : world.runImage widx = some cid) :
    (runJudge world problem ctx0).status = "failed" ∧
    (runJudge world problem ctx0).msg
      = "failed to run judge " ++ toString (widx + 1) ++ " step "
        ++ toString (sidx + 1) ∧
    cid ∈ (runJudge world problem ctx0).cleaned ∧
    ∀ q ∈ (runJudge world problem ctx0).execTrace,
      q.1 < widx ∨ (q.1 = widx ∧ q.2 ≤ sidx) := by
  have hrj : runJudge world problem ctx0
      = runJudgeAfterStage world hashes ctx0.judge_result
        (runWorkflows world problem.workflow 0 ctx0.workflow_results [] []) := by
    unfold runJudge
    rw [if_pos hmk, hst]
  obtain ⟨results', created', trace', hrw, hmem, htr⟩ :=
    runWorkflows_fail_at problem.workflow 0 widx sidx wf cid
      ctx0.workflow_results [] [] (Nat.zero_le _) (by simpa using hwf)
      (fun j _ hj => himg j hj)
      (fun j wfj _ hj hg k hk => hsteps j wfj hj (by simpa using hg) k hk)
      (fun j _ hj => hlogs j hj) hprev hsx hfail hcid
  rw [hrj, hrw]
  refine ⟨rfl, rfl, ?_, ?_⟩
  · show cid ∈ created'.reverse
    exact List.mem_reverse.2 hmem
  · intro q hq
    rcases htr q hq with hin | hb
    · exact absurd hin (by simp)
    · exact hb

/-- A judge world that fails the exec of workflow 0, step 0 with exit code
1, everything else succeeding. -/
def wWorldStepFail : JudgeWorld :=
  { wWorldOk with
    exec := fun j k =>
      if j = 0 ∧ k = 0 then { ec := 1, logs := "", err := false }
      else { ec := 0, logs := "", err := false } }

/-- Witness for `step_failure_aborts_pipeline`: step 1 of workflow 1 exits
with code 1. -/
theorem step_failure_aborts_pipeline_witness :
    (runJudge wWorldStepFail wProblemHello wCtxFresh).status = "failed" ∧
    (runJudge wWorldStepFail wProblemHello wCtxFresh).msg
      = "failed to run judge 1 step 1" ∧
    "c0" ∈ (runJudge wWorldStepFail wProblemHello wCtxFresh).cleaned ∧
    ∀ q ∈ (runJudge wWorldStepFail wProblemHello wCtxFresh).execTrace,
      q.1 < 0 ∨ (q.1 = 0 ∧ q.2 ≤ 0) := by
  obtain ⟨h1, h2, h3, h4⟩ := step_failure_aborts_pipeline wWorldStepFail wProblemHello
    wCtxFresh 0 0 wWfHello "c0"
    [{ path := "main.py", hash := "d41d8cd98f00b204e9800998ecf8427e" }]
    rfl rfl rfl
    (fun j hj => absurd hj (Nat.not_lt_zero j))
    (fun j wfj hj _ => absurd hj (Nat.not_lt_zero j))
    (fun j hj => absurd hj (Nat.not_lt_zero j))
    (fun k hk => absurd hk (Nat.not_lt_zero k))
    (by decide)
    (Or.inl (by decide))
    rfl
  exact ⟨h1, by rw [h2]; decide, h3, h4⟩

/-- Inversion of a successful `submitFile`: exactly one hash record is
appended. -/
theorem submitFile_some_inv {world : JudgeWorld} {hashes h2 : List SubmitHash}
    {p : String} (h : submitFile world hashes p = some h2) :
    ∃ hsh, h2 = hashes ++ [{ path := p, hash := hsh }] := by
  unfold submitFile at h
  cases hc : world.copyResult p with
  | none => rw [hc] at h; exact absurd h (by simp)
  | some hsh =>
    rw [hc] at h
    simp only [Option.some.injEq] at h
    exact ⟨hsh, h.symm⟩

/-- A failing walk only ever extends the staged-hash list: files staged
before the failure stay recorded. -/
theorem runWalk_fail_extend {world : JudgeWorld} {d : String}
    (events : List WalkEvent) (hashes h' : List SubmitHash)
    (h : runWalk world d events hashes = .fail h') :
    ∃ extra, h' = hashes ++ extra := by
  induction events generalizing hashes with
  | nil => simp [runWalk] at h
  | cons ev rest ih =>
    cases ev with
    | errEvent =>
      simp only [runWalk, WalkRes.fail.injEq] at h
      exact ⟨[], by simp [h]⟩
    | dirEntry => exact ih hashes (by simpa [runWalk] using h)
    | fileEntry rel =>
      unfold runWalk at h
      cases hc : submitFile world hashes (d ++ "/" ++ rel) with
      | some h2 =>
        rw [hc] at h
        obtain ⟨ex, hex⟩ := ih h2 h
        obtain ⟨hsh, hrec⟩ := submitFile_some_inv hc
        exact ⟨{ path := d ++ "/" ++ rel, hash := hsh } :: ex, by
          rw [hex, hrec]; simp⟩
      | none =>
        rw [hc] at h
        simp only [WalkRes.fail.injEq] at h
        exact ⟨[], by simp [h]⟩

/-- Inversion of a failing `stageEntry`: the message is the
`strconv.Quote`-built file or directory message, and the staged hashes are
only extended. -/
theorem stageEntry_fail_inv {world : JudgeWorld} {hashes h' : List SubmitHash}
    {e : Submit} {msg : String} (h : stageEntry world hashes e = .fail msg h') :
    msg = (if e.is_dir = true then "failed to copy submit directory " ++ goQuote e.path
           else "failed to copy submit file " ++ goQuote e.path) ∧
    ∃ extra, h' = hashes ++ extra := by
  unfold stageEntry at h
  by_cases hd : e.is_dir = false
  · rw [if_pos hd] at h
    cases hc : submitFile world hashes e.path with
    | some h2 => rw [hc] at h; exact absurd h (by simp)
    | none =>
      rw [hc] at h
      simp only [StageRes.fail.injEq] at h
      refine ⟨?_, ⟨[], by simp [h.2]⟩⟩
      rw [if_neg (by simp [hd])]
      exact h.1.symm
  · rw [if_neg hd] at h
    have hd' : e.is_dir = true := by revert hd; cases e.is_dir <;> simp
    cases hw : runWalk world e.path (world.walkEvents e.path) hashes with
    | ok h2 => rw [hw] at h; exact absurd h (by simp)
    | fail h2 =>
      rw [hw] at h
      simp only [StageRes.fail.injEq] at h
      refine ⟨?_, ?_⟩
      · rw [if_pos hd']
        exact h.1.symm
      · obtain ⟨ex, hex⟩ := runWalk_fail_extend _ hashes h2 hw
        exact ⟨ex, h.2 ▸ hex⟩

/-- The staging loop distributes over list append. -/
theorem stageSubmits_append (world : JudgeWorld) (l1 l2 : List Submit)
    (acc : List SubmitHash) :
    stageSubmits world (l1 ++ l2) acc =
      match stageSubmits world l1 acc with
      | .ok h => stageSubmits world l2 h
      | .fail m h => .fail m h := by
  induction l1 generalizing acc with
  | nil => simp [stageSubmits]
  | cons e rest ih =>
    cases hse : stageEntry world acc e with
    | ok h2 =>
      have hl : stageSubmits world (e :: (rest ++ l2)) acc
          = stageSubmits world (rest ++ l2) h2 := by
        conv_lhs => rw [stageSubmits]
        rw [hse]
      have hr : stageSubmits world (e :: rest) acc = stageSubmits world rest h2 := by
        conv_lhs => rw [stageSubmits]
        rw [hse]
      rw [List.cons_append, hl, hr]
      exact ih h2
    | fail m h2 =>
      have hl : stageSubmits world (e :: (rest ++ l2)) acc = .fail m h2 := by
        conv_lhs => rw [stageSubmits]
        rw [hse]
      have hr : stageSubmits world (e :: rest) acc = .fail m h2 := by
        conv_lhs => rw [stageSubmits]
        rw [hse]
      rw [List.cons_append, hl, hr]

/-- A judge world whose file copies all fail. -/
def wWorldCopyFail : JudgeWorld :=
  { wWorldOk with copyResult := fun _ => none }

/-- C7 counterexample: the staging failure message wraps the declared path
in `strconv.Quote`, so for the entry `main.py` the message is
`failed to copy submit file "main.py"` (with quotes), not
`failed to copy submit file main.py` as the claim's template reads. -/
theorem staging_message_quotes_path :
    wProblemHello.submits = [{ path := "main.py", is_dir := false }] ∧
    (runJudge wWorldCopyFail wProblemHello wCtxFresh).status = "failed" ∧
    (runJudge wWorldCopyFail wProblemHello wCtxFresh).msg
      = "failed to copy submit file \"main.py\"" ∧
    (runJudge wWorldCopyFail wProblemHello wCtxFresh).msg
      ≠ "failed to copy submit file main.py" := by
  refine ⟨rfl, rfl, by decide, by decide⟩

/-- C7 (amended): an I/O failure while staging a submit entry aborts the
pipeline before any workflow runs, with status failed and message
`failed to copy submit file <q>` for a file entry or
`failed to copy submit directory <q>` for a directory entry, where `<q>`
is the declared path wrapped by `strconv.Quote`; hashes staged before the
failure are kept and no rollback happens. -/
theorem staging_failure_aborts (world : JudgeWorld) (problem : Problem)
    (ctx0 : SubmitCtx) (pre : List Submit) (e : Submit) (rest : List Submit)
    (h1 : List SubmitHash) (msg : String) (h2 : List SubmitHash)
    (hsubs : problem.submits = pre ++ e :: rest)
    (hmk : (world.mkdirWorkdirOk && world.mkdirSubmitsOk && world.mkdirWorkOk
      && world.chownWorkdirOk && world.chownSubmitsOk && world.chownWorkOk) = true)
    (hpre : stageSubmits world pre ctx0.submits_hashes = .ok h1)
    (hfail : stageEntry world h1 e = .fail msg h2) :
    (runJudge world problem ctx0).status = "failed" ∧
    (runJudge world problem ctx0).msg
      = (if e.is_dir = true then "failed to copy submit directory " ++ goQuote e.path
         else "failed to copy submit file " ++ goQuote e.path) ∧
    (runJudge world problem ctx0).submits_hashes = h2 ∧
    (∃ extra, h2 = h1 ++ extra) ∧
    (runJudge world problem ctx0).created = [] ∧
    (runJudge world problem ctx0).execTrace = [] := by
  have hstage : stageSubmits world problem.submits ctx0.submits_hashes
      = .fail msg h2 := by
    rw [hsubs, stageSubmits_append, hpre]
    show stageSubmits world (e :: rest) h1 = .fail msg h2
    conv_lhs => rw [stageSubmits]
    rw [hfail]
  have hrj : runJudge world problem ctx0
      = { status := "failed", msg := msg, submits_hashes := h2,
          workflow_results := ctx0.workflow_results,
          judge_result := ctx0.judge_result,
          created := [], cleaned := [], execTrace := [] } := by
    unfold runJudge
    rw [if_pos hmk, hstage]
  obtain ⟨hmsg, hext⟩ := stageEntry_fail_inv hfail
  rw [hrj]
  exact ⟨rfl, hmsg, rfl, hext, rfl, rfl⟩

/-- Witness for `staging_failure_aborts`: the single file entry of the
hello problem fails to copy in the all-copies-fail world. -/
theorem staging_failure_aborts_witness :
    (runJudge wWorldCopyFail wProblemHello wCtxFresh).status = "failed" ∧
    (runJudge wWorldCopyFail wProblemHello wCtxFresh).msg
      = "failed to copy submit file " ++ goQuote "main.py" ∧
    (runJudge wWorldCopyFail wProblemHello wCtxFresh).submits_hashes = [] ∧
    (runJudge wWorldCopyFail wProblemHello wCtxFresh).created = [] ∧
    (runJudge wWorldCopyFail wProblemHello wCtxFresh).execTrace = [] := by
  obtain ⟨s1, s2, s3, s4, s5, s6⟩ := staging_failure_aborts wWorldCopyFail
    wProblemHello wCtxFresh [] { path := "main.py", is_dir := false } [] []
    ("failed to copy submit file " ++ goQuote "main.py") []
    rfl rfl rfl rfl
  exact ⟨s1, by simpa using s2, s3, s5, s6⟩

/-- C10: `Userface.Write` reports `(len(p), nil)` unconditionally: the tee
write's outcome — including any live-sink error — is discarded. -/
theorem userface_write_swallows_errors :
    ∀ (hasSink : Bool) (buffer : List Nat) (sinkN : Nat) (sinkErr : Option String)
      (p : List Nat),
      (Userface.write hasSink buffer sinkN sinkErr p).2
        = { n := p.length, err := none } ∧
      (Userface.write hasSink buffer sinkN sinkErr p).1 = buffer ++ p := by
  intro hasSink buffer sinkN sinkErr p
  exact ⟨rfl, rfl⟩

end SOJ
